import Mathlib

/-! Verification of the "More Upload Stats" plugin (`upload_stats/__init__.py`
and `upload_stats/base.py`).

The Python plugin keeps an in-memory statistics document
`{"file": {...}, "user": {...}, "day": [7 ints]}`, updates it on every
upload event (`Plugin.track_file_upload`), persists it as JSON
(`Plugin.save_stats` / `Plugin.load_stats`) and renders HTML tables from it
(`Plugin.user_stats`, `Plugin.file_stats`, `Plugin.ranking`, thresholds).

Python dictionaries are embedded as insertion-ordered association lists
(`dictGet` / `dictSet`), JSON documents as the inductive `Json`, machine
time and sizes as unbounded integers (Python integers are unbounded; the
relevant float arithmetic - `n * 0.25` and `time()` comparisons - is exact
at the granularity the claims need).
-/

/-- One entry of `stats["file"]`, as written by `Plugin.track_file_upload`. -/
structure FileEntry where
  total : Nat
  virtual_path : String
  last_user : String
  last_modified : Nat
  file_size : Nat
  total_bytes : Nat
  deriving Repr, DecidableEq

/-- One entry of `stats["user"]`, as written by `Plugin.track_file_upload`. -/
structure UserEntry where
  total : Nat
  last_file : String
  last_real_file : String
  total_bytes : Nat
  deriving Repr, DecidableEq

/-- The statistics document `Plugin.stats`. -/
structure Stats where
  file : List (String × FileEntry)
  user : List (String × UserEntry)
  day : List Nat
  deriving Repr, DecidableEq

/-- The class-level default `stats = {"file": {}, "user": {}, "day": [0]*7}`. -/
def initStats : Stats :=
  { file := [], user := [], day := [0, 0, 0, 0, 0, 0, 0] }

/-- Python `dict.get`: first binding of the key in the association list. -/
def dictGet {β : Type} : List (String × β) → String → Option β
  | [], _ => none
  | (k', v) :: rest, k => if k' = k then some v else dictGet rest k

/-- Python `d[k] = v`: replace the binding in place, or append a new one. -/
def dictSet {β : Type} : List (String × β) → String → β → List (String × β)
  | [], k, v => [(k, v)]
  | (k', v') :: rest, k, v =>
      if k' = k then (k, v) :: rest else (k', v') :: dictSet rest k v

/-- Result of a successful `Path(real_path).stat()`. -/
structure StatRes where
  st_size : Nat
  st_mtime : Nat
  deriving Repr, DecidableEq

/-- The inputs of one `track_file_upload` event: the call arguments plus the
ambient observations (the `stat` outcome, `none` when the file is missing,
and `datetime.now().weekday()`). -/
structure Upload where
  user : String
  virtual_path : String
  real_path : String
  statRes : Option StatRes
  weekday : Fin 7
  deriving Repr, DecidableEq

/-- The `self.stats["file"][real_path] = {...}` assignment of
`track_file_upload`.

The Python expression
`file_info.get("total_bytes", 0) + stat.st_size if stat else 0`
parses as `(file_info.get("total_bytes", 0) + stat.st_size) if stat else 0`:
a failed `stat` resets the cumulative byte counter to zero.  The embedding
reproduces that precedence, for both the file and the user entry. -/
def newFileEntry (s : Stats) (u : Upload) : FileEntry :=
  let file_info := dictGet s.file u.real_path
  { total := ((file_info.map FileEntry.total).getD 0) + 1
    virtual_path := u.virtual_path
    last_user := u.user
    last_modified := match u.statRes with | some r => r.st_mtime | none => 0
    file_size := match u.statRes with | some r => r.st_size | none => 0
    total_bytes :=
      match u.statRes with
      | some r => ((file_info.map FileEntry.total_bytes).getD 0) + r.st_size
      | none => 0 }

/-- The `self.stats["user"][user] = {...}` assignment, same precedence
remark as `newFileEntry`. -/
def newUserEntry (s : Stats) (u : Upload) : UserEntry :=
  let user_info := dictGet s.user u.user
  { total := ((user_info.map UserEntry.total).getD 0) + 1
    last_file := u.virtual_path
    last_real_file := u.real_path
    total_bytes :=
      match u.statRes with
      | some r => ((user_info.map UserEntry.total_bytes).getD 0) + r.st_size
      | none => 0 }

/-- The three `self.stats[...] = ...` assignments of `track_file_upload`
combined (weekday bucket, file entry, user entry). -/
def trackStats (s : Stats) (u : Upload) : Stats :=
  { file := dictSet s.file u.real_path (newFileEntry s u)
    user := dictSet s.user u.user (newUserEntry s u)
    day := s.day.set u.weekday.val ((s.day.getD u.weekday.val 0) + 1) }

/-- The JSON fragment `json.dumps` / `json.loads` exchange for this plugin:
numbers, strings, arrays and objects (an object is the ordered list of its
key/value pairs, as a Python dict serializes). -/
inductive Json where
  | num (i : Int)
  | str (s : String)
  | arr (xs : List Json)
  | obj (fields : List (String × Json))
  deriving Repr

def encodeNat (n : Nat) : Json := .num (Int.ofNat n)

def decodeNat : Json → Option Nat
  | .num i => if i < 0 then none else some i.toNat
  | _ => none

def decodeStr : Json → Option String
  | .str s => some s
  | _ => none

def encodeFileEntry (e : FileEntry) : Json :=
  .obj [("total", encodeNat e.total),
        ("virtual_path", .str e.virtual_path),
        ("last_user", .str e.last_user),
        ("last_modified", encodeNat e.last_modified),
        ("file_size", encodeNat e.file_size),
        ("total_bytes", encodeNat e.total_bytes)]

def decodeFileEntry (j : Json) : Option FileEntry :=
  match j with
  | .obj fs => do
      let total ← (dictGet fs "total").bind decodeNat
      let virtual_path ← (dictGet fs "virtual_path").bind decodeStr
      let last_user ← (dictGet fs "last_user").bind decodeStr
      let last_modified ← (dictGet fs "last_modified").bind decodeNat
      let file_size ← (dictGet fs "file_size").bind decodeNat
      let total_bytes ← (dictGet fs "total_bytes").bind decodeNat
      pure { total, virtual_path, last_user, last_modified, file_size, total_bytes }
  | _ => none

def encodeUserEntry (e : UserEntry) : Json :=
  .obj [("total", encodeNat e.total),
        ("last_file", .str e.last_file),
        ("last_real_file", .str e.last_real_file),
        ("total_bytes", encodeNat e.total_bytes)]

def decodeUserEntry (j : Json) : Option UserEntry :=
  match j with
  | .obj fs => do
      let total ← (dictGet fs "total").bind decodeNat
      let last_file ← (dictGet fs "last_file").bind decodeStr
      let last_real_file ← (dictGet fs "last_real_file").bind decodeStr
      let total_bytes ← (dictGet fs "total_bytes").bind decodeNat
      pure { total, last_file, last_real_file, total_bytes }
  | _ => none

/-- An `Option`-valued map over a list, failing as soon as one element fails. -/
def mapO {α β : Type} (f : α → Option β) : List α → Option (List β)
  | [] => some []
  | a :: l =>
      match f a, mapO f l with
      | some b, some bs => some (b :: bs)
      | _, _ => none

def decodeEntries {ε : Type} (decE : Json → Option ε) : Json → Option (List (String × ε))
  | .obj fs => mapO (fun kv => (decE kv.2).map (fun e => (kv.1, e))) fs
  | _ => none

def decodeDay : Json → Option (List Nat)
  | .arr xs => mapO decodeNat xs
  | _ => none

/-- Embedding of `json.dumps(self.stats)`, at the level of the JSON document. -/
def encodeStats (s : Stats) : Json :=
  .obj [("file", .obj (s.file.map (fun kv => (kv.1, encodeFileEntry kv.2)))),
        ("user", .obj (s.user.map (fun kv => (kv.1, encodeUserEntry kv.2)))),
        ("day", .arr (s.day.map encodeNat))]

/-- Embedding of `self.stats.update(parsed)`: each top-level key present in the parsed
object replaces the corresponding component wholesale.  A present but
ill-shaped value is outside the typed model (Python would store the raw
value and fail later); the component is then kept. -/
def statsUpdate (s : Stats) (j : Json) : Stats :=
  match j with
  | .obj fs =>
      { file := ((dictGet fs "file").bind (decodeEntries decodeFileEntry)).getD s.file
        user := ((dictGet fs "user").bind (decodeEntries decodeUserEntry)).getD s.user
        day := ((dictGet fs "day").bind decodeDay).getD s.day }
  | _ => s

/-- State of the statistics file on disk: absent, present but not valid
JSON, or present with a parsed document. -/
inductive StatsFileState where
  | missing
  | corrupt
  | content (j : Json)

/-- The plugin state `load_stats` / `save_stats` / `track_file_upload` act
on: the in-memory stats, the on-disk stats file, and the two periodic-job
attributes.  A job attribute is `none` while `self.auto_builder` (resp.
`self.auto_backup`) has not been assigned yet - `Plugin.init` calls
`load_stats` (line 102) before assigning either job (lines 104-115), and no
class attribute provides them - and `some paused` once the job exists. -/
structure World where
  stats : Stats
  statsFile : StatsFileState
  autoBuilderPaused : Option Bool
  autoBackupPaused : Option Bool

/-- Embedding of `Plugin.save_stats` (directory creation aside): write the
serialized stats document to the stats file. -/
def save_stats (w : World) : World :=
  { w with statsFile := .content (encodeStats w.stats) }

/-- Embedding of `Plugin.pause_jobs`: `self.auto_builder.pause()` then
`self.auto_backup.pause()`.  Accessing an attribute that has not been
assigned raises `AttributeError`; the `Except` error value carries the
state at the raise (Python state mutations before the raise persist). -/
def pause_jobs (w : World) : Except World World :=
  match w.autoBuilderPaused with
  | none => .error w
  | some _ =>
      match w.autoBackupPaused with
      | none => .error { w with autoBuilderPaused := some true }
      | some _ => .ok { w with autoBuilderPaused := some true,
                               autoBackupPaused := some true }

/-- Embedding of `Plugin.load_stats`.  Missing file (`FileNotFoundError`):
create it via `save_stats` and return.  Unparsable file
(`json.JSONDecodeError`): log, show a window, then `self.pause_jobs()` -
which raises `AttributeError` whenever the job attributes are unassigned,
and that exception is NOT caught, so it escapes `load_stats`.  Otherwise
merge the parsed document into the stats with `dict.update`. -/
def load_stats (w : World) : Except World World :=
  match w.statsFile with
  | .missing => .ok (save_stats w)
  | .corrupt => pause_jobs w
  | .content j => .ok { w with stats := statsUpdate w.stats j }

/-- Embedding of `Plugin.track_file_upload`: the stats mutations followed by
`self.save_stats()`. -/
def track_file_upload (w : World) (u : Upload) : World :=
  save_stats { w with stats := trackStats w.stats u }

/-- The stats values reachable from the class-level default by upload
events. -/
def Reachable (s : Stats) : Prop :=
  ∃ us : List Upload, s = us.foldl trackStats initStats

/-- The size actually added by an upload: `st_size` on a successful
`stat`, zero otherwise. -/
def uploadSize (u : Upload) : Nat :=
  match u.statRes with | some r => r.st_size | none => 0

/-- Shorthand for `self.stats["file"].get(p, {}).get("total", 0)`. -/
def fileTotal (s : Stats) (p : String) : Nat :=
  ((dictGet s.file p).map FileEntry.total).getD 0

/-- Shorthand for `self.stats["file"].get(p, {}).get("total_bytes", 0)`. -/
def fileBytes (s : Stats) (p : String) : Nat :=
  ((dictGet s.file p).map FileEntry.total_bytes).getD 0

/-- The plugin's state right after `init` on a fresh install: default
stats, both periodic jobs assigned and running. -/
def initWorld : World :=
  { stats := initStats, statsFile := .missing,
    autoBuilderPaused := some false, autoBackupPaused := some false }

/-- The plugin state at the only call site of `load_stats`
(`Plugin.init`, line 102): neither `auto_builder` nor `auto_backup` has
been assigned yet. -/
def initCallState (s : Stats) (f : StatsFileState) : World :=
  { stats := s, statsFile := f,
    autoBuilderPaused := none, autoBackupPaused := none }



/-- Stable insertion into a sorted list: `x` goes in front of the first
element `y` with `le x y`. -/
def insertSorted {α : Type} (le : α → α → Bool) (x : α) : List α → List α
  | [] => [x]
  | y :: ys => if le x y then x :: y :: ys else y :: insertSorted le x ys

/-- Python `sorted(l, ...)`, embedded as insertion sort: a permutation of
`l` that is sorted for `le`. -/
def sortBy {α : Type} (le : α → α → Bool) (l : List α) : List α :=
  l.foldr (insertSorted le) []

/-- The configuration values the claims depend on. -/
structure Config where
  automatic_threshold : Bool
  user_threshold : Nat
  file_threshold : Nat

/-- Embedding of `set(map(lambda i: i["total"], self.stats["user"].values()))`: the
distinct user totals. -/
def uniqueUserTotals (s : Stats) : List Nat :=
  (s.user.map (fun kv => kv.2.total)).dedup

/-- Embedding of `set(map(lambda i: i["total"], self.stats["file"].values()))`: the
distinct file totals. -/
def uniqueFileTotals (s : Stats) : List Nat :=
  (s.file.map (fun kv => kv.2.total)).dedup

/-- Embedding of `Plugin.user_threshold`: with `automatic_threshold`, index
`int(len(uniq_totals) * 0.25)` - which is exactly `n / 4` - into the
ascending sorted distinct totals (0 if there are no users); otherwise the
configured value. -/
def user_threshold (cfg : Config) (s : Stats) : Nat :=
  if cfg.automatic_threshold then
    if s.user.isEmpty then 0
    else (sortBy (fun a b => decide (a ≤ b)) (uniqueUserTotals s)).getD
      ((uniqueUserTotals s).length / 4) 0
  else cfg.user_threshold

/-- Embedding of `Plugin.file_threshold`: same computation over the file totals. -/
def file_threshold (cfg : Config) (s : Stats) : Nat :=
  if cfg.automatic_threshold then
    if s.file.isEmpty then 0
    else (sortBy (fun a b => decide (a ≤ b)) (uniqueFileTotals s)).getD
      ((uniqueFileTotals s).length / 4) 0
  else cfg.file_threshold

/-- Embedding of `Plugin.user_stats`: the usernames whose table row is emitted, in
emission order - the users sorted by total descending, skipping every row
with `total <= threshold` (the HTML string is a fold of fixed markup over
this list). -/
def user_stats (s : Stats) (threshold : Nat) : List String :=
  ((sortBy (fun a b => decide (b.2.total ≤ a.2.total)) s.user).filter
    (fun kv => decide (threshold < kv.2.total))).map (fun kv => kv.1)

/-- Embedding of `Plugin.file_stats`: the file paths whose table row is emitted, same
shape as `user_stats`. -/
def file_stats (s : Stats) (threshold : Nat) : List String :=
  ((sortBy (fun a b => decide (b.2.total ≤ a.2.total)) s.file).filter
    (fun kv => decide (threshold < kv.2.total))).map (fun kv => kv.1)

/-- One `<li>` of `Plugin.ranking`: real entries carry their score, the
placeholder renders title and score as `"-"` and links to `"#"`. -/
structure RankItem where
  title : String
  score : Option Int
  link : String
  deriving Repr, DecidableEq

/-- A real ranking entry `(title, score, link_id)`; `href=link_id or "#"`. -/
def realRankItem (e : String × Int × String) : RankItem :=
  { title := e.1, score := some e.2.1, link := if e.2.2 = "" then "#" else e.2.2 }

/-- The padding entry `title = score = "-"`, `link_id = None`. -/
def placeholderRankItem : RankItem :=
  { title := "-", score := none, link := "#" }

/-- One iteration of the `for index in range(size)` loop of
`Plugin.ranking`: the guarded `data[index]` access (`none` would be an
`IndexError`). -/
def rankItemAt (d : List (String × Int × String)) (index : Nat) : Option RankItem :=
  if index + 1 ≤ d.length then (d.get? index).map realRankItem
  else some placeholderRankItem

/-- Embedding of `Plugin.ranking`: sort by score descending, then emit one item per
`index in range(size)`; `none` if any iteration would raise `IndexError`. -/
def ranking (data : List (String × Int × String)) (size : Nat) : Option (List RankItem) :=
  mapO (rankItemAt (sortBy (fun a b => decide (b.2.1 ≤ a.2.1)) data)) (List.range size)

/-- One pass of the `PeriodicJob.run` loop reaching the
`time_to_work`-check: the clock at the check, the delay value obtained this
pass (constant, or the `delay` callback's result) and the clock when
`update` returns. -/
structure Tick where
  now : Int
  delay : Int
  endTime : Int
  deriving Repr, DecidableEq

/-- Embedding of `PeriodicJob.time_to_work` (after `__pause.wait()` returned):
`delay and (not self.last_run or time() - self.last_run > delay)`.
`not self.last_run` is Python falsiness: `last_run` is `None` or `0`. -/
def time_to_work (delay : Int) (lastRun : Option Int) (now : Int) : Bool :=
  decide (delay ≠ 0) &&
    (decide (lastRun.getD 0 = 0) || decide (delay < now - lastRun.getD 0))

/-- The `while` loop of `PeriodicJob.run` over a sequence of passes,
starting from a given `last_run`: for each invocation of `update`, the
time of the invocation paired with the delay value the pass obtained (the
constant, or whatever the delay callback returned on that pass).  After an
invocation `last_run` is set to `time()` taken when `update` returns, the
pass's `endTime`. -/
def runTrace (lastRun : Option Int) : List Tick → List (Int × Int)
  | [] => []
  | tk :: rest =>
      if time_to_work tk.delay lastRun tk.now then
        (tk.now, tk.delay) :: runTrace (some tk.endTime) rest
      else runTrace lastRun rest

/-- A concrete stats value: one file and one user, both with one upload of
10 bytes. -/
def oneUploadStats : Stats :=
  { file := [("p", { total := 1, virtual_path := "v", last_user := "alice",
                     last_modified := 0, file_size := 10, total_bytes := 10 })],
    user := [("alice", { total := 1, last_file := "v", last_real_file := "p",
                         total_bytes := 10 })],
    day := [0, 1, 0, 0, 0, 0, 0] }

/-- A concrete configuration with the automatic threshold enabled. -/
def autoConfig : Config :=
  { automatic_threshold := true, user_threshold := 5, file_threshold := 2 }

/-- A concrete stats value with two users (totals 3 and 1) and two files
(totals 3 and 1). -/
def twoTotalsStats : Stats :=
  { file := [("p", { total := 3, virtual_path := "v", last_user := "a",
                     last_modified := 0, file_size := 10, total_bytes := 30 }),
             ("q", { total := 1, virtual_path := "w", last_user := "b",
                     last_modified := 0, file_size := 20, total_bytes := 20 })],
    user := [("a", { total := 3, last_file := "v", last_real_file := "p",
                     total_bytes := 30 }),
             ("b", { total := 1, last_file := "w", last_real_file := "q",
                     total_bytes := 20 })],
    day := [0, 0, 4, 0, 0, 0, 0] }

lemma dictGet_dictSet_self {β : Type} (m : List (String × β)) (k : String) (v : β) :
    dictGet (dictSet m k v) k = some v := by
  induction m with
  | nil => simp [dictGet, dictSet]
  | cons kv rest ih =>
      by_cases h : kv.1 = k
      · simp [dictSet, dictGet, h]
      · simp [dictSet, dictGet, h, ih]

lemma dictGet_dictSet_ne {β : Type} (m : List (String × β)) (k k' : String) (v : β)
    (h : k' ≠ k) : dictGet (dictSet m k' v) k = dictGet m k := by
  induction m with
  | nil => simp [dictGet, dictSet, h]
  | cons kv rest ih =>
      by_cases hk : kv.1 = k'
      · simp [dictSet, dictGet, hk, h]
      · by_cases hk2 : kv.1 = k
        · simp [dictSet, dictGet, hk, hk2, Ne.symm h]
        · simp [dictSet, dictGet, hk, hk2, ih]

lemma mem_iff_dictGet {β : Type} {m : List (String × β)} (hnd : (m.map Prod.fst).Nodup)
    (k : String) (v : β) : (k, v) ∈ m ↔ dictGet m k = some v := by
  induction m with
  | nil => simp [dictGet]
  | cons kv rest ih =>
      simp only [List.map_cons, List.nodup_cons] at hnd
      constructor
      · intro hmem
        rcases List.mem_cons.mp hmem with h | h
        · rw [← h]; simp [dictGet]
        · have hk : kv.1 ≠ k := by
            intro he
            exact hnd.1 (he ▸ (List.mem_map.mpr ⟨(k, v), h, rfl⟩))
          simp only [dictGet, if_neg hk]
          exact (ih hnd.2 |>.mp h)
      · intro hget
        simp only [dictGet] at hget
        by_cases hk : kv.1 = k
        · rw [if_pos hk] at hget
          cases kv
          simp_all
        · rw [if_neg hk] at hget
          exact List.mem_cons.mpr (Or.inr ((ih hnd.2).mpr hget))

lemma insertSorted_perm {α : Type} (le : α → α → Bool) (x : α) (l : List α) :
    (insertSorted le x l).Perm (x :: l) := by
  induction l with
  | nil => simp [insertSorted]
  | cons y ys ih =>
      by_cases h : le x y
      · simp [insertSorted, h]
      · simp only [insertSorted, if_neg h]
        exact ((ih.cons y).trans (List.Perm.swap x y ys))

lemma sortBy_perm {α : Type} (le : α → α → Bool) (l : List α) :
    (sortBy le l).Perm l := by
  induction l with
  | nil => simp [sortBy]
  | cons x xs ih =>
      simp only [sortBy, List.foldr_cons]
      exact (insertSorted_perm le x _).trans (ih.cons x)

lemma sortBy_length {α : Type} (le : α → α → Bool) (l : List α) :
    (sortBy le l).length = l.length :=
  (sortBy_perm le l).length_eq

lemma mem_sortBy {α : Type} (le : α → α → Bool) (l : List α) (x : α) :
    x ∈ sortBy le l ↔ x ∈ l :=
  (sortBy_perm le l).mem_iff

lemma sum_set_succ (l : List Nat) (i : Nat) (h : i < l.length) :
    (l.set i (l.getD i 0 + 1)).sum = l.sum + 1 := by
  induction l generalizing i with
  | nil => simp at h
  | cons a rest ih =>
      cases i with
      | zero => simp [List.getD]; omega
      | succ j =>
          have hj : j < rest.length := by simpa using h
          simp only [List.set, List.sum_cons, List.getD_cons_succ]
          rw [ih j hj]
          omega

lemma mapO_eq_map {α β : Type} (f : α → Option β) (g : α → β) (l : List α)
    (h : ∀ x ∈ l, f x = some (g x)) : mapO f l = some (l.map g) := by
  induction l with
  | nil => simp [mapO]
  | cons a rest ih =>
      have ha := h a (List.mem_cons_self a rest)
      have hrest := ih (fun x hx => h x (List.mem_cons_of_mem a hx))
      simp [mapO, ha, hrest]

lemma decodeFileEntry_encode (e : FileEntry) :
    decodeFileEntry (encodeFileEntry e) = some e := rfl

lemma decodeUserEntry_encode (e : UserEntry) :
    decodeUserEntry (encodeUserEntry e) = some e := rfl

lemma decodeNat_encode (n : Nat) : decodeNat (encodeNat n) = some n := by
  simp [decodeNat, encodeNat]

lemma mapO_map_eq {α β γ : Type} (f : β → Option γ) (h : α → β) (g : α → γ)
    (l : List α) (hf : ∀ x ∈ l, f (h x) = some (g x)) :
    mapO f (l.map h) = some (l.map g) := by
  induction l with
  | nil => simp [mapO]
  | cons a rest ih =>
      have ha := hf a (List.mem_cons_self a rest)
      have hrest := ih (fun x hx => hf x (List.mem_cons_of_mem a hx))
      simp [mapO, ha, hrest]

lemma decodeDay_encode (day : List Nat) :
    decodeDay (.arr (day.map encodeNat)) = some day := by
  have := mapO_map_eq decodeNat encodeNat id day (fun x _ => decodeNat_encode x)
  simpa [decodeDay] using this

lemma decodeEntries_encodeFile (m : List (String × FileEntry)) :
    decodeEntries decodeFileEntry (.obj (m.map (fun kv => (kv.1, encodeFileEntry kv.2)))) =
      some m := by
  have := mapO_map_eq
    (fun kv : String × Json => (decodeFileEntry kv.2).map (fun e => (kv.1, e)))
    (fun kv : String × FileEntry => (kv.1, encodeFileEntry kv.2))
    id m (fun x _ => by simp [decodeFileEntry_encode])
  simpa [decodeEntries] using this

lemma decodeEntries_encodeUser (m : List (String × UserEntry)) :
    decodeEntries decodeUserEntry (.obj (m.map (fun kv => (kv.1, encodeUserEntry kv.2)))) =
      some m := by
  have := mapO_map_eq
    (fun kv : String × Json => (decodeUserEntry kv.2).map (fun e => (kv.1, e)))
    (fun kv : String × UserEntry => (kv.1, encodeUserEntry kv.2))
    id m (fun x _ => by simp [decodeUserEntry_encode])
  simpa [decodeEntries] using this

lemma statsUpdate_encode (s0 s : Stats) : statsUpdate s0 (encodeStats s) = s := by
  cases s with
  | mk f u d =>
      simp [statsUpdate, encodeStats, dictGet, decodeEntries_encodeFile,
        decodeEntries_encodeUser, decodeDay_encode]

lemma stats_foldl_track (w : World) (us : List Upload) :
    (us.foldl track_file_upload w).stats = us.foldl trackStats w.stats := by
  induction us generalizing w with
  | nil => rfl
  | cons u rest ih => simpa [track_file_upload, save_stats] using ih _

/-- C4: saving the statistics and loading them back returns normally and
is the identity on the counters map - for every reachable stats value,
`load_stats` applied to the file written by `save_stats` succeeds and
reproduces the identical stats map. -/
theorem c4_save_load_roundtrip (w : World) (_hr : Reachable w.stats) :
    ∃ w', load_stats (save_stats w) = .ok w' ∧ w'.stats = w.stats := by
  refine ⟨_, rfl, ?_⟩
  show statsUpdate w.stats (encodeStats w.stats) = w.stats
  exact statsUpdate_encode w.stats w.stats

theorem c4_witness :
    ∃ w', load_stats (save_stats initWorld) = .ok w' ∧
      w'.stats = initWorld.stats :=
  c4_save_load_roundtrip initWorld ⟨[], rfl⟩

/-- C7: refuted as stated.  The missing-file branch does behave as claimed
(the current, initially empty, counters map is written out and `load_stats`
returns normally).  But the unparsable-JSON branch does not: at the only
call site of `load_stats` (`Plugin.init`, line 102, before `auto_builder`
and `auto_backup` are assigned at lines 104-115, and no class attribute
provides them), `self.pause_jobs()` evaluates `self.auto_builder.pause()`
on an unassigned attribute, so an `AttributeError` escapes instead of the
jobs being paused.  The stats map is indeed left unchanged, but by the
exception, not by graceful handling.  `pause_jobs` exists solely for this
handler and can never succeed from it, so the claim describes the intent
and the code's ordering is the slip. -/
theorem c7_corrupt_stats_file_raises :
    (load_stats (initCallState initStats .missing) =
      .ok { stats := initStats, statsFile := .content (encodeStats initStats),
            autoBuilderPaused := none, autoBackupPaused := none }) ∧
    (load_stats (initCallState initStats .corrupt) =
      .error (initCallState initStats .corrupt)) :=
  ⟨rfl, rfl⟩

/-- C6: `track_file_upload` tolerates a missing real file.  When the
`stat` fails, zero is recorded as the file's size and modification time,
the file's and the user's `total` and the weekday bucket are still
incremented, and the full counters map is still written to disk
(`trackStats` and `track_file_upload` are total functions: the handled
`FileNotFoundError` does not escape). -/
theorem c6_missing_file_tolerated (w : World) (u : Upload)
    (hstat : u.statRes = none) (hday : w.stats.day.length = 7) :
    ∃ fe ue,
      dictGet (trackStats w.stats u).file u.real_path = some fe ∧
      dictGet (trackStats w.stats u).user u.user = some ue ∧
      fe.file_size = 0 ∧ fe.last_modified = 0 ∧
      fe.total = fileTotal w.stats u.real_path + 1 ∧
      ue.total = ((dictGet w.stats.user u.user).map UserEntry.total).getD 0 + 1 ∧
      (trackStats w.stats u).day.sum = w.stats.day.sum + 1 ∧
      track_file_upload w u =
        { w with stats := trackStats w.stats u,
                 statsFile := .content (encodeStats (trackStats w.stats u)) } := by
  refine ⟨newFileEntry w.stats u, newUserEntry w.stats u, ?_, ?_, ?_, ?_, ?_, ?_, ?_, ?_⟩
  · exact dictGet_dictSet_self _ _ _
  · exact dictGet_dictSet_self _ _ _
  · simp [newFileEntry, hstat]
  · simp [newFileEntry, hstat]
  · simp [newFileEntry, fileTotal]
  · simp [newUserEntry]
  · exact sum_set_succ _ _ (by rw [hday]; exact u.weekday.isLt)
  · rfl

theorem c6_witness :
    ∃ fe ue,
      dictGet (trackStats initWorld.stats
        { user := "u", virtual_path := "v", real_path := "p",
          statRes := none, weekday := 3 }).file "p" = some fe ∧
      dictGet (trackStats initWorld.stats
        { user := "u", virtual_path := "v", real_path := "p",
          statRes := none, weekday := 3 }).user "u" = some ue ∧
      fe.file_size = 0 ∧ fe.last_modified = 0 ∧
      fe.total = fileTotal initWorld.stats "p" + 1 ∧
      ue.total = ((dictGet initWorld.stats.user "u").map UserEntry.total).getD 0 + 1 ∧
      (trackStats initWorld.stats
        { user := "u", virtual_path := "v", real_path := "p",
          statRes := none, weekday := 3 }).day.sum = initWorld.stats.day.sum + 1 ∧
      track_file_upload initWorld
        { user := "u", virtual_path := "v", real_path := "p",
          statRes := none, weekday := 3 } =
        { initWorld with
            stats := trackStats initWorld.stats
              { user := "u", virtual_path := "v", real_path := "p",
                statRes := none, weekday := 3 },
            statsFile := .content (encodeStats (trackStats initWorld.stats
              { user := "u", virtual_path := "v", real_path := "p",
                statRes := none, weekday := 3 })) } :=
  c6_missing_file_tolerated initWorld
    { user := "u", virtual_path := "v", real_path := "p",
      statRes := none, weekday := 3 } rfl rfl

/-- C1: refuted as stated - the cumulative byte counters are NOT
monotonically non-decreasing.  Uploading a file of size 100 and then the
same file again while its `stat` fails resets `total_bytes` from 100 to 0,
because the trailing `if stat else 0` in `track_file_upload` binds the
whole sum `file_info.get("total_bytes", 0) + stat.st_size`.  The `total`
counters and the weekday buckets, by contrast, only ever grow; the reset
contradicts the accumulation the success branch implements, so this is a
slip in the code rather than in the specification. -/
theorem c1_total_bytes_resets_on_failed_stat :
    (fileBytes (trackStats initStats
      { user := "u", virtual_path := "v", real_path := "p",
        statRes := some { st_size := 100, st_mtime := 5 }, weekday := 0 }) "p" = 100) ∧
    (fileBytes (trackStats (trackStats initStats
      { user := "u", virtual_path := "v", real_path := "p",
        statRes := some { st_size := 100, st_mtime := 5 }, weekday := 0 })
      { user := "u", virtual_path := "v", real_path := "p",
        statRes := none, weekday := 0 }) "p" = 0) := by decide

lemma fileTotal_track_self (s : Stats) (u : Upload) :
    fileTotal (trackStats s u) u.real_path = fileTotal s u.real_path + 1 := by
  simp [fileTotal, trackStats, dictGet_dictSet_self, newFileEntry]

lemma fileBytes_track_some (s : Stats) (u : Upload) (r : StatRes)
    (h : u.statRes = some r) :
    fileBytes (trackStats s u) u.real_path = fileBytes s u.real_path + r.st_size := by
  simp [fileBytes, trackStats, dictGet_dictSet_self, newFileEntry, h]

lemma fold_track_file_counters (p : String) (us : List Upload) (s : Stats)
    (h : ∀ u ∈ us, u.real_path = p ∧ u.statRes.isSome) :
    fileTotal (us.foldl trackStats s) p = fileTotal s p + us.length ∧
    fileBytes (us.foldl trackStats s) p = fileBytes s p + (us.map uploadSize).sum := by
  induction us generalizing s with
  | nil => simp
  | cons u rest ih =>
      obtain ⟨hp, hsome⟩ := h u (List.mem_cons_self u rest)
      obtain ⟨r, hr⟩ := Option.isSome_iff_exists.mp hsome
      have hrest := ih (trackStats s u) (fun x hx => h x (List.mem_cons_of_mem u hx))
      have htot : fileTotal (trackStats s u) p = fileTotal s p + 1 := by
        rw [← hp]; exact fileTotal_track_self s u
      have hbytes : fileBytes (trackStats s u) p = fileBytes s p + r.st_size := by
        rw [← hp]; exact fileBytes_track_some s u r hr
      have husize : uploadSize u = r.st_size := by simp [uploadSize, hr]
      constructor
      · rw [List.foldl_cons, hrest.1, htot, List.length_cons]; omega
      · rw [List.foldl_cons, hrest.2, hbytes, List.map_cons, List.sum_cons, husize]
        omega

/-- C2: recording N uploads of the same path `p`, each observing an
existing real file (a successful `stat` of size `s_i`), onto a stats map
not yet containing `p`, yields `stats["file"][p]["total"] = N` and
`stats["file"][p]["total_bytes"] = s_1 + ... + s_N`. -/
theorem c2_file_counters_accumulate (p : String) (us : List Upload) (s : Stats)
    (h0 : dictGet s.file p = none)
    (hus : ∀ u ∈ us, u.real_path = p ∧ u.statRes.isSome)
    (hN : 1 ≤ us.length) :
    ∃ fe, dictGet (us.foldl trackStats s).file p = some fe ∧
      fe.total = us.length ∧ fe.total_bytes = (us.map uploadSize).sum := by
  obtain ⟨htot, hbytes⟩ := fold_track_file_counters p us s hus
  simp only [fileTotal, fileBytes, h0, Option.map_none', Option.getD_none,
    Nat.zero_add] at htot hbytes
  cases hfe : dictGet (us.foldl trackStats s).file p with
  | none =>
      exfalso
      rw [hfe] at htot
      simp at htot
      omega
  | some fe =>
      refine ⟨fe, rfl, ?_, ?_⟩
      · rw [hfe] at htot; simpa using htot
      · rw [hfe] at hbytes; simpa using hbytes

theorem c2_witness :
    (1 ≤ 2 ∧ (∀ u ∈ [(⟨"a", "v", "p", some ⟨10, 1⟩, 0⟩ : Upload),
                     (⟨"b", "v2", "p", some ⟨32, 2⟩, 1⟩ : Upload)],
        u.real_path = "p" ∧ u.statRes.isSome)) ∧
    ∃ fe, dictGet ([(⟨"a", "v", "p", some ⟨10, 1⟩, 0⟩ : Upload),
                    (⟨"b", "v2", "p", some ⟨32, 2⟩, 1⟩ : Upload)].foldl
        trackStats initStats).file "p" = some fe ∧
      fe.total = 2 ∧ fe.total_bytes = 42 :=
  ⟨⟨by decide, by decide⟩, by
    have := c2_file_counters_accumulate "p"
      [(⟨"a", "v", "p", some ⟨10, 1⟩, 0⟩ : Upload),
       (⟨"b", "v2", "p", some ⟨32, 2⟩, 1⟩ : Upload)] initStats rfl
      (by decide) (by decide)
    simpa using this⟩

lemma fold_track_day (us : List Upload) (s : Stats) (h : s.day.length = 7) :
    (us.foldl trackStats s).day.length = 7 ∧
    (us.foldl trackStats s).day.sum = s.day.sum + us.length := by
  induction us generalizing s with
  | nil => simpa using h
  | cons u rest ih =>
      have hlt : u.weekday.val < s.day.length := by rw [h]; exact u.weekday.isLt
      have hlen : (trackStats s u).day.length = 7 := by
        simp [trackStats, h]
      have hsum : (trackStats s u).day.sum = s.day.sum + 1 :=
        sum_set_succ _ _ hlt
      obtain ⟨h1, h2⟩ := ih (trackStats s u) hlen
      refine ⟨h1, ?_⟩
      simp only [List.foldl_cons, List.length_cons]
      rw [h2, hsum]
      omega

/-- C8: after every sequence of `track_file_upload` calls from the plugin's
initial state, the seven weekday buckets of `stats["day"]` sum to the total
number of uploads recorded, and the array keeps exactly 7 elements (each
call increments exactly one bucket by exactly 1). -/
theorem c8_weekday_sum_is_upload_count (us : List Upload) :
    (us.foldl track_file_upload initWorld).stats.day.length = 7 ∧
    (us.foldl track_file_upload initWorld).stats.day.sum = us.length := by
  rw [stats_foldl_track]
  show (us.foldl trackStats initStats).day.length = 7 ∧
    (us.foldl trackStats initStats).day.sum = us.length
  simpa [initStats] using fold_track_day us initStats rfl

/-- C3: with `automatic_threshold` enabled and a non-empty user (resp.
file) map, the computed threshold is the element at index
`int(n * 0.25) = n / 4` of the ascending sorted list of the `n` distinct
`total` values - an index that is always in bounds. -/
theorem c3_automatic_threshold_percentile (cfg : Config) (s : Stats)
    (hauto : cfg.automatic_threshold = true) :
    (s.user ≠ [] →
      ∃ h : (uniqueUserTotals s).length / 4 <
          (sortBy (fun a b => decide (a ≤ b)) (uniqueUserTotals s)).length,
        user_threshold cfg s =
          (sortBy (fun a b => decide (a ≤ b)) (uniqueUserTotals s)).get
            ⟨(uniqueUserTotals s).length / 4, h⟩) ∧
    (s.file ≠ [] →
      ∃ h : (uniqueFileTotals s).length / 4 <
          (sortBy (fun a b => decide (a ≤ b)) (uniqueFileTotals s)).length,
        file_threshold cfg s =
          (sortBy (fun a b => decide (a ≤ b)) (uniqueFileTotals s)).get
            ⟨(uniqueFileTotals s).length / 4, h⟩) := by
  constructor
  · intro hne
    have hn : 0 < (uniqueUserTotals s).length := by
      rw [List.length_pos, uniqueUserTotals, Ne, List.dedup_eq_nil]
      simp [hne]
    have hidx : (uniqueUserTotals s).length / 4 <
        (sortBy (fun a b => decide (a ≤ b)) (uniqueUserTotals s)).length := by
      rw [sortBy_length]
      exact Nat.div_lt_self hn (by norm_num)
    refine ⟨hidx, ?_⟩
    have hEmpty : s.user.isEmpty = false := by
      simp [List.isEmpty_iff, hne]
    simp only [user_threshold, hauto, if_true, hEmpty, Bool.false_eq_true, if_false]
    rw [List.getD_eq_getElem _ _ hidx]
    simp [List.get_eq_getElem]
  · intro hne
    have hn : 0 < (uniqueFileTotals s).length := by
      rw [List.length_pos, uniqueFileTotals, Ne, List.dedup_eq_nil]
      simp [hne]
    have hidx : (uniqueFileTotals s).length / 4 <
        (sortBy (fun a b => decide (a ≤ b)) (uniqueFileTotals s)).length := by
      rw [sortBy_length]
      exact Nat.div_lt_self hn (by norm_num)
    refine ⟨hidx, ?_⟩
    have hEmpty : s.file.isEmpty = false := by
      simp [List.isEmpty_iff, hne]
    simp only [file_threshold, hauto, if_true, hEmpty, Bool.false_eq_true, if_false]
    rw [List.getD_eq_getElem _ _ hidx]
    simp [List.get_eq_getElem]

/-- C5 counterexample: with threshold 1 and a user (resp. file) whose
`total` is exactly 1 - so `total` is at least the threshold - the row does
NOT appear: `user_stats` and `file_stats` skip rows with
`total <= threshold`, so the threshold is a strict lower bound, not the
minimum count required to appear. -/
theorem c5_counterexample :
    ((dictGet oneUploadStats.user "alice").map UserEntry.total = some 1 ∧
      1 ≤ 1 ∧ "alice" ∉ user_stats oneUploadStats 1) ∧
    ((dictGet oneUploadStats.file "p").map FileEntry.total = some 1 ∧
      1 ≤ 1 ∧ "p" ∉ file_stats oneUploadStats 1) := by decide

/-- C5 (amended): a user (resp. file) row appears in the tables built by
`user_stats` (resp. `file_stats`) exactly when its `total` STRICTLY
exceeds the threshold. -/
theorem c5_row_iff_total_exceeds_threshold (s : Stats) (t : Nat)
    (hu : (s.user.map Prod.fst).Nodup) (hf : (s.file.map Prod.fst).Nodup) :
    (∀ name, name ∈ user_stats s t ↔
      ∃ e, dictGet s.user name = some e ∧ t < e.total) ∧
    (∀ p, p ∈ file_stats s t ↔
      ∃ e, dictGet s.file p = some e ∧ t < e.total) := by
  constructor
  · intro name
    simp only [user_stats, List.mem_map, List.mem_filter, mem_sortBy,
      decide_eq_true_eq]
    constructor
    · rintro ⟨⟨k, e⟩, ⟨hmem, hlt⟩, rfl⟩
      exact ⟨e, (mem_iff_dictGet hu k e).mp hmem, hlt⟩
    · rintro ⟨e, hget, hlt⟩
      exact ⟨(name, e), ⟨(mem_iff_dictGet hu name e).mpr hget, hlt⟩, rfl⟩
  · intro p
    simp only [file_stats, List.mem_map, List.mem_filter, mem_sortBy,
      decide_eq_true_eq]
    constructor
    · rintro ⟨⟨k, e⟩, ⟨hmem, hlt⟩, rfl⟩
      exact ⟨e, (mem_iff_dictGet hf k e).mp hmem, hlt⟩
    · rintro ⟨e, hget, hlt⟩
      exact ⟨(p, e), ⟨(mem_iff_dictGet hf p e).mpr hget, hlt⟩, rfl⟩

theorem c5_witness :
    ((twoTotalsStats.user.map Prod.fst).Nodup ∧
      (twoTotalsStats.file.map Prod.fst).Nodup) ∧
    ((∀ name, name ∈ user_stats twoTotalsStats 1 ↔
        ∃ e, dictGet twoTotalsStats.user name = some e ∧ 1 < e.total) ∧
     (∀ p, p ∈ file_stats twoTotalsStats 1 ↔
        ∃ e, dictGet twoTotalsStats.file p = some e ∧ 1 < e.total)) :=
  ⟨⟨by decide, by decide⟩,
    c5_row_iff_total_exceeds_threshold twoTotalsStats 1 (by decide) (by decide)⟩

theorem c3_witness :
    ∃ h : (uniqueUserTotals twoTotalsStats).length / 4 <
        (sortBy (fun a b => decide (a ≤ b)) (uniqueUserTotals twoTotalsStats)).length,
      user_threshold autoConfig twoTotalsStats =
        (sortBy (fun a b => decide (a ≤ b)) (uniqueUserTotals twoTotalsStats)).get
          ⟨(uniqueUserTotals twoTotalsStats).length / 4, h⟩ :=
  (c3_automatic_threshold_percentile autoConfig twoTotalsStats rfl).1 (by decide)

lemma runTrace_chain (ticks : List Tick) (lr : Option Int)
    (h1 : ∀ tk ∈ ticks, 1 ≤ tk.now)
    (h2 : ∀ tk ∈ ticks, tk.now ≤ tk.endTime)
    (hlr : ∀ r, lr = some r → 1 ≤ r) :
    List.Chain' (fun a b => b.2 < b.1 - a.1) (runTrace lr ticks) ∧
    (∀ p, (runTrace lr ticks).head? = some p →
      ∀ r, lr = some r → p.2 < p.1 - r) := by
  induction ticks generalizing lr with
  | nil => simp [runTrace]
  | cons tk rest ih =>
      have h1tk := h1 tk (List.mem_cons_self tk rest)
      have h2tk := h2 tk (List.mem_cons_self tk rest)
      have h1r := fun x hx => h1 x (List.mem_cons_of_mem tk hx)
      have h2r := fun x hx => h2 x (List.mem_cons_of_mem tk hx)
      by_cases hw : time_to_work tk.delay lr tk.now = true
      · have hlr' : ∀ r, (some tk.endTime : Option Int) = some r → 1 ≤ r := by
          intro r hr
          cases hr
          omega
        obtain ⟨ihChain, ihHead⟩ := ih (some tk.endTime) h1r h2r hlr'
        constructor
        · rw [runTrace, if_pos hw, List.chain'_cons']
          refine ⟨?_, ihChain⟩
          intro b hb
          have hnext := ihHead b hb tk.endTime rfl
          show b.2 < b.1 - tk.now
          omega
        · intro p hp r hrl
          rw [runTrace, if_pos hw] at hp
          simp only [List.head?_cons, Option.some.injEq] at hp
          subst hp
          subst hrl
          have hr1 := hlr r rfl
          simp only [time_to_work, Bool.and_eq_true, Bool.or_eq_true,
            decide_eq_true_eq, Option.getD_some] at hw
          show tk.delay < tk.now - r
          rcases hw.2 with h0 | hgt
          · omega
          · omega
      · obtain ⟨ihChain, ihHead⟩ := ih lr h1r h2r hlr
        rw [runTrace, if_neg hw]
        exact ⟨ihChain, ihHead⟩

/-- C9: the `PeriodicJob.run` loop invokes `update` at most once per
elapsed-delay window.  For any sequence of loop passes with positive clock
values and `update` calls that do not run backwards in time - the delay
being a constant or re-obtained from the delay callback on every pass -
each invocation is separated from the previous one by strictly more than
the delay value the invoking pass obtained; the first invocation (no
previous run, `last_run` unset) is unconstrained. -/
theorem c9_update_rate_limited (ticks : List Tick)
    (h1 : ∀ tk ∈ ticks, 1 ≤ tk.now)
    (h2 : ∀ tk ∈ ticks, tk.now ≤ tk.endTime) :
    List.Chain' (fun a b => b.2 < b.1 - a.1) (runTrace none ticks) :=
  (runTrace_chain ticks none h1 h2 (by intro r hr; cases hr)).1

theorem c9_witness :
    List.Chain' (fun a b => b.2 < b.1 - a.1)
      (runTrace none [⟨1, 2, 1⟩, ⟨2, 2, 2⟩, ⟨5, 2, 6⟩, ⟨9, 1, 9⟩]) :=
  c9_update_rate_limited [⟨1, 2, 1⟩, ⟨2, 2, 2⟩, ⟨5, 2, 6⟩, ⟨9, 1, 9⟩]
    (by decide) (by decide)

/-- C10: for every input list and every size, `ranking` never indexes out
of bounds (the guarded `data[index]` access always succeeds, so the result
is `some`) and produces exactly `size` items: position `i` holds the `i`-th
entry of the data sorted by score descending while one exists, and the
placeholder item (`"-"` title and score, `"#"` link) once the data is
exhausted. -/
theorem c10_ranking_size_and_padding (data : List (String × Int × String)) (size : Nat) :
    ∃ l, ranking data size = some l ∧ l.length = size ∧
      ∀ i, i < size →
        l.get? i = some ((((sortBy (fun a b => decide (b.2.1 ≤ a.2.1)) data).get? i).map
          realRankItem).getD placeholderRankItem) ∧
        (data.length ≤ i → l.get? i = some placeholderRankItem) := by
  have hlen : (sortBy (fun a b => decide (b.2.1 ≤ a.2.1)) data).length = data.length :=
    sortBy_length _ _
  have hitem : ∀ i ∈ List.range size,
      rankItemAt (sortBy (fun a b => decide (b.2.1 ≤ a.2.1)) data) i =
        some ((((sortBy (fun a b => decide (b.2.1 ≤ a.2.1)) data).get? i).map
          realRankItem).getD placeholderRankItem) := by
    intro i _
    by_cases hi : i + 1 ≤ (sortBy (fun a b => decide (b.2.1 ≤ a.2.1)) data).length
    · cases he : (sortBy (fun a b => decide (b.2.1 ≤ a.2.1)) data).get? i with
      | none =>
          exfalso
          have := List.get?_eq_none.mp he
          omega
      | some e =>
          rw [rankItemAt, if_pos hi, he]
          rfl
    · have he : (sortBy (fun a b => decide (b.2.1 ≤ a.2.1)) data).get? i = none :=
        List.get?_len_le (by omega)
      rw [rankItemAt, if_neg hi, he]
      rfl
  have hmap := mapO_eq_map _
    (fun i => (((sortBy (fun a b => decide (b.2.1 ≤ a.2.1)) data).get? i).map
      realRankItem).getD placeholderRankItem)
    (List.range size) hitem
  refine ⟨_, hmap, by simp, ?_⟩
  intro i hi
  constructor
  · rw [List.get?_map, List.get?_range hi]
    rfl
  · intro hle
    have he : (sortBy (fun a b => decide (b.2.1 ≤ a.2.1)) data).get? i = none :=
      List.get?_len_le (by omega)
    rw [List.get?_map, List.get?_range hi]
    rw [List.get?_eq_getElem?] at he
    simp [he]

theorem c10_witness :
    ∃ l, ranking [("a", 3, "#a")] 2 = some l ∧ l.length = 2 ∧
      ∀ i, i < 2 →
        l.get? i = some ((((sortBy (fun a b => decide (b.2.1 ≤ a.2.1))
          [("a", 3, "#a")]).get? i).map realRankItem).getD placeholderRankItem) ∧
        ([("a", 3, "#a")].length ≤ i → l.get? i = some placeholderRankItem) :=
  c10_ranking_size_and_padding [("a", 3, "#a")] 2
